import Mathlib

/-!
Shallow embedding of the invite-logs bot (`src/index.js`, `src/storage.js`).
JavaScript objects whose keys are insertion-ordered are modelled as
association lists (`AList`); assigning to an existing key updates it in
place, assigning a fresh key appends it, matching the language's key-order
semantics that the code relies on when it builds and iterates invite maps.
-/

namespace InviteBot

/-- Association list keyed by strings, modelling a JS object's ordered entries. -/
abbrev AList (β : Type) := List (String × β)

/-- First-match lookup, modelling property read `obj[key]` (`none` = absent). -/
def alookup {β : Type} : AList β → String → Option β
  | [], _ => none
  | (k, v) :: rest, key => if k = key then some v else alookup rest key

/-- Property assignment `obj[key] = v`: update in place when the key exists,
append when it is new (JS insertion-order semantics). -/
def aupsert {β : Type} : AList β → String → β → AList β
  | [], key, v => [(key, v)]
  | (k, w) :: rest, key, v =>
    if k = key then (k, v) :: rest else (k, w) :: aupsert rest key v

/-- Cached invite metadata, one entry of `invitesCache[guildId]`
(`fetchAndStoreInvites` always stores a numeric `uses`). -/
structure InviteRecord where
  uses : Nat
  inviterId : Option String := none
  channelId : Option String := none
  maxUses : Option Nat := none
  createdTimestamp : Option Int := none
  expiresAt : Option Int := none
deriving DecidableEq, Repr

/-- `const b = before.get(code); (b?.uses ?? 0)` — uses recorded for `code`
in the "before" snapshot, with a missing entry read as 0. -/
def beforeUses (before : AList InviteRecord) (code : String) : Nat :=
  match alookup before code with
  | some b => b.uses
  | none => 0

/-- The diff loop of the `guildMemberAdd` handler: walk the "after" map in
iteration order and return the first entry whose `uses` strictly exceed the
"before" uses, stopping at the first match. -/
def findUsedInvite : AList InviteRecord → AList InviteRecord → Option (String × InviteRecord)
  | [], _ => none
  | (code, a) :: rest, before =>
    if a.uses > beforeUses before code then some (code, a)
    else findUsedInvite rest before

/-- The body of the fetch loop in `fetchAndStoreInvites`: assign every fetched
invite into the guild's cache entry, in fetch order. -/
def mergeFetch (entry : AList InviteRecord) (fetched : List (String × InviteRecord)) :
    AList InviteRecord :=
  fetched.foldl (fun acc p => aupsert acc p.1 p.2) entry

/-- Last-assignment lookup over a fetched list: the value the final iteration
of the fetch loop leaves for `code`, `none` when `code` is not fetched. -/
def lookupLast (fetched : List (String × InviteRecord)) (code : String) : Option InviteRecord :=
  fetched.foldl (fun acc p => if p.1 = code then some p.2 else acc) none

/-- Outcome of `fetchAndStoreInvites`: the new cache, and the value written to
disk by `saveInvites()` when the refresh succeeded (`none` = nothing saved).
The ManageGuild permission check and the fetch failure path both leave the
cache untouched and save nothing; on success the fetched invites are assigned
one by one into the guild's existing entry, which is then persisted. -/
structure RefreshOutcome where
  cache : AList (AList InviteRecord)
  persisted : Option (AList (AList InviteRecord))
deriving DecidableEq, Repr

/-- `fetchAndStoreInvites(guild)` with the external inputs made explicit:
`hasPerm` is the ManageGuild check, `fetchResult` is `guild.invites.fetch()`
(`none` = the fetch threw). -/
def fetchAndStoreInvites (invites : AList (AList InviteRecord)) (gid : String)
    (hasPerm : Bool) (fetchResult : Option (List (String × InviteRecord))) : RefreshOutcome :=
  if hasPerm then
    match fetchResult with
    | some fetched =>
      let cache := aupsert invites gid (mergeFetch ((alookup invites gid).getD []) fetched)
      ⟨cache, some cache⟩
    | none => ⟨invites, none⟩
  else ⟨invites, none⟩

/-- Live per-inviter statistics record as the handlers create it. -/
structure InviterStats where
  joins : Int
  leaves : Int
  bonus : Int
  lastInviteCode : Option String := none
deriving DecidableEq, Repr

/-- The lazily-initialized record: joins 0, leaves 0, bonus 0, no code. -/
def zeroStats : InviterStats :=
  { joins := 0, leaves := 0, bonus := 0, lastInviteCode := none }

/-- Read of a possibly-missing record's joins, as in the source's fallback
reads of a field of a possibly-absent record. -/
def joinsOf (s : Option InviterStats) : Int :=
  match s with | some x => x.joins | none => 0

/-- Read of a possibly-missing record's leaves. -/
def leavesOf (s : Option InviterStats) : Int :=
  match s with | some x => x.leaves | none => 0

/-- Read of a possibly-missing record's bonus. -/
def bonusOf (s : Option InviterStats) : Int :=
  match s with | some x => x.bonus | none => 0

/-- `computeTotal(s)`: joins - leaves + bonus, each field defaulting to 0. -/
def computeTotal (s : Option InviterStats) : Int :=
  joinsOf s - leavesOf s + bonusOf s

/-- Per-guild, per-user statistics ledger (`stats`). -/
abbrev StatsMap := AList (AList InviterStats)

/-- Per-guild member-to-inviter reverse index (`membersMap`). -/
abbrev MembersMap := AList (AList String)

/-- Nested read of one user's record. -/
def getStats (st : StatsMap) (gid uid : String) : Option InviterStats :=
  (alookup st gid).bind (fun g => alookup g uid)

/-- Nested read of one member's recorded inviter. -/
def memberInviter (m : MembersMap) (gid mid : String) : Option String :=
  (alookup m gid).bind (fun g => alookup g mid)

/-- The handlers' shared mutation shape: ensure the guild map and the user's
record exist (lazily zeroed), then mutate that record in place. -/
def updateUserStats (st : StatsMap) (gid uid : String) (f : InviterStats → InviterStats) :
    StatsMap :=
  let g := (alookup st gid).getD []
  let s := (alookup g uid).getD zeroStats
  aupsert st gid (aupsert g uid (f s))

/-- The three ledger mutations of the source, as one operation type: an
attributed join, a departure credit, and a bonus adjustment. -/
inductive LedgerOp where
  | join (gid uid code : String)
  | leave (gid uid : String)
  | addBonus (gid uid : String) (delta : Int)
deriving DecidableEq, Repr

/-- Apply one ledger operation exactly as the corresponding handler does. -/
def applyOp (st : StatsMap) : LedgerOp → StatsMap
  | .join gid uid code =>
    updateUserStats st gid uid
      (fun s => { s with joins := s.joins + 1, lastInviteCode := some code })
  | .leave gid uid =>
    updateUserStats st gid uid (fun s => { s with leaves := s.leaves + 1 })
  | .addBonus gid uid d =>
    updateUserStats st gid uid (fun s => { s with bonus := s.bonus + d })

/-- Apply a sequence of ledger operations in order. -/
def applyOps (st : StatsMap) (ops : List LedgerOp) : StatsMap :=
  ops.foldl applyOp st

/-- Number of attributed joins for (gid, uid) in an operation sequence. -/
def countJoins : List LedgerOp → String → String → Int
  | [], _, _ => 0
  | .join g u _ :: rest, gid, uid =>
    (if g = gid ∧ u = uid then 1 else 0) + countJoins rest gid uid
  | _ :: rest, gid, uid => countJoins rest gid uid

/-- Number of departure credits for (gid, uid) in an operation sequence. -/
def countLeaves : List LedgerOp → String → String → Int
  | [], _, _ => 0
  | .leave g u :: rest, gid, uid =>
    (if g = gid ∧ u = uid then 1 else 0) + countLeaves rest gid uid
  | _ :: rest, gid, uid => countLeaves rest gid uid

/-- Sum of bonus deltas for (gid, uid) in an operation sequence. -/
def sumBonus : List LedgerOp → String → String → Int
  | [], _, _ => 0
  | .addBonus g u d :: rest, gid, uid =>
    (if g = gid ∧ u = uid then d else 0) + sumBonus rest gid uid
  | _ :: rest, gid, uid => sumBonus rest gid uid

/-- JS truthiness of an inviter id: `undefined`, `null` and the empty string
are all falsy; any other string passes. -/
def jsTruthyId : Option String → Option String
  | some s => if s = "" then none else some s
  | none => none

/-- The `guildMemberRemove` handler: look up the member's recorded inviter;
if falsy, return unchanged; otherwise lazily create that inviter's record and
increment its leaves, leaving the reverse index untouched. -/
def guildMemberRemove (stats : StatsMap) (members : MembersMap) (gid mid : String) :
    StatsMap × MembersMap :=
  match jsTruthyId (memberInviter members gid mid) with
  | none => (stats, members)
  | some inv =>
    (updateUserStats stats gid inv (fun s => { s with leaves := s.leaves + 1 }), members)

/-- The unconditional guard at the top of the join handler's mutation block:
create an empty per-guild map when the guild has none. -/
def ensureKey {β : Type} (m : AList (AList β)) (k : String) : AList (AList β) :=
  match alookup m k with
  | some _ => m
  | none => aupsert m k []

/-- Record the member's inviter in the reverse index. -/
def setMember (members : MembersMap) (gid mid inv : String) : MembersMap :=
  aupsert members gid (aupsert ((alookup members gid).getD []) mid inv)

/-- The mutation block of the join handler: when the diff matched an invite
with a truthy inviter id, bump that inviter's joins, set lastInviteCode and
record the member's inviter; in every other case mutate nothing. -/
def applyAttribution (stats : StatsMap) (members : MembersMap) (gid mid : String) :
    Option (String × InviteRecord) → StatsMap × MembersMap
  | some (code, r) =>
    match jsTruthyId r.inviterId with
    | some inv =>
      (updateUserStats stats gid inv
        (fun s => { s with joins := s.joins + 1, lastInviteCode := some code }),
       setMember members gid mid inv)
    | none => (stats, members)
  | none => (stats, members)

/-- The join handler's vanity fallback comparison: both counters available
and the later strictly larger. -/
def vanityIncreased : Option Nat → Option Nat → Bool
  | some bv, some av => bv < av
  | _, _ => false

/-- How a join was resolved, as reported by the handler's log branches. -/
inductive AttributionResult where
  | matchedInvite (code : String) (rec : InviteRecord)
  | matchedVanity
  | inconclusive
deriving DecidableEq, Repr

/-- The bot's mutable state relevant to attribution. -/
structure BotState where
  invites : AList (AList InviteRecord)
  stats : StatsMap
  members : MembersMap
deriving DecidableEq, Repr

/-- The `guildMemberAdd` handler: capture the "before" snapshot, refresh the
cache, diff for the used invite, fall back to the vanity counter, then apply
the attribution side effects. External inputs (permission, fetch result,
vanity counters) are explicit parameters. -/
def guildMemberAdd (st : BotState) (gid memberId : String) (hasPerm : Bool)
    (fetchResult : Option (List (String × InviteRecord)))
    (beforeVanity afterVanity : Option Nat) : BotState × AttributionResult :=
  let before := (alookup st.invites gid).getD []
  let invites := (fetchAndStoreInvites st.invites gid hasPerm fetchResult).cache
  let after := (alookup invites gid).getD []
  let usedInvite := findUsedInvite after before
  let stats1 := ensureKey st.stats gid
  let members1 := ensureKey st.members gid
  let sm := applyAttribution stats1 members1 gid memberId usedInvite
  let res : AttributionResult :=
    match usedInvite with
    | some (code, r) => .matchedInvite code r
    | none => if vanityIncreased beforeVanity afterVanity then .matchedVanity else .inconclusive
  (⟨invites, sm.1, sm.2⟩, res)

/-- A raw stats record as found on disk before migration: each numeric field
is absent-or-null (`none`) or a number; `lastInviteCode` distinguishes an
absent key (outer `none`) from a key present with null (`some none`). -/
structure RawStats where
  total : Option Int := none
  joins : Option Int := none
  leaves : Option Int := none
  bonus : Option Int := none
  lastInviteCode : Option (Option String) := none
deriving DecidableEq, Repr

/-- One user's step of `migrateOldStatsSchema`: a record with a non-null
`total` and no `joins` is rewritten to the new shape; otherwise (including a
null record, replaced by an empty one) missing fields are defaulted in place. -/
def migrateEntry : Option RawStats → Option RawStats
  | some s =>
    if s.total.isSome ∧ s.joins = none then
      some { total := none, joins := some (s.total.getD 0), leaves := some 0, bonus := some 0,
             lastInviteCode := some s.lastInviteCode.join }
    else
      some { s with joins := some (s.joins.getD 0), leaves := some (s.leaves.getD 0),
                    bonus := some (s.bonus.getD 0),
                    lastInviteCode := some (s.lastInviteCode.getD none) }
  | none =>
    some { total := none, joins := some 0, leaves := some 0, bonus := some 0,
           lastInviteCode := some none }

/-- `migrateOldStatsSchema()`: rewrite every per-guild, per-user record. -/
def migrateOldStatsSchema (stats : AList (AList (Option RawStats))) :
    AList (AList (Option RawStats)) :=
  stats.map (fun g => (g.1, g.2.map (fun u => (u.1, migrateEntry u.2))))

/-- Ordering used by the leaderboard: descending by total. -/
def totalDesc (a b : String × Int) : Prop := b.2 ≤ a.2

instance : DecidableRel totalDesc :=
  fun a b => inferInstanceAs (Decidable (b.2 ≤ a.2))

instance : IsTotal (String × Int) totalDesc :=
  ⟨fun a b => le_total b.2 a.2⟩

instance : IsTrans (String × Int) totalDesc :=
  ⟨fun _ _ _ h1 h2 => le_trans h2 h1⟩

/-- The `lb` command body: map each entry of the guild's stats to
(userId, computeTotal), sort descending by total, take `amount` entries.
ECMAScript `Array.prototype.sort` is stable and `insertionSort` with
`totalDesc` is the stable descending sort, so they compute the same list. -/
def leaderboardTop (g : AList InviterStats) (amount : Nat) : List (String × Int) :=
  (List.insertionSort totalDesc (g.map (fun p => (p.1, computeTotal (some p.2))))).take amount

/-- Read one code of one guild's cache entry (absent guild = empty entry). -/
def cacheLookup (invites : AList (AList InviteRecord)) (gid code : String) :
    Option InviteRecord :=
  alookup ((alookup invites gid).getD []) code


theorem alookup_aupsert {β : Type} (m : AList β) (k : String) (v : β) (key : String) :
    alookup (aupsert m k v) key = if key = k then some v else alookup m key := by
  induction m with
  | nil =>
    by_cases h : key = k
    · subst h; simp [aupsert, alookup]
    · have h2 : ¬ k = key := fun hk => h hk.symm
      simp [aupsert, alookup, h, h2]
  | cons p rest ih =>
    obtain ⟨pk, pv⟩ := p
    by_cases hp : pk = k
    · subst hp
      by_cases h : key = pk
      · subst h; simp [aupsert, alookup]
      · have h2 : ¬ pk = key := fun hk => h hk.symm
        simp [aupsert, alookup, h, h2]
    · by_cases h2 : pk = key
      · subst h2
        simp [aupsert, alookup, hp]
      · simp [aupsert, alookup, hp, h2, ih]

theorem foldl_pick_init (rest : List (String × InviteRecord)) (code : String)
    (init : Option InviteRecord) :
    rest.foldl (fun acc p => if p.1 = code then some p.2 else acc) init =
      (rest.foldl (fun acc p => if p.1 = code then some p.2 else acc) none).or init := by
  induction rest generalizing init with
  | nil => rfl
  | cons p l ih =>
    simp only [List.foldl_cons]
    by_cases h : p.1 = code
    · rw [if_pos h, if_pos h, ih (some p.2)]
      cases List.foldl (fun acc q => if q.1 = code then some q.2 else acc) none l <;> rfl
    · rw [if_neg h, if_neg h]
      exact ih init

theorem lookupLast_cons (p : String × InviteRecord) (rest : List (String × InviteRecord))
    (code : String) :
    lookupLast (p :: rest) code =
      (lookupLast rest code).or (if p.1 = code then some p.2 else none) := by
  simp only [lookupLast, List.foldl_cons]
  exact foldl_pick_init rest code _

theorem alookup_mergeFetch (entry : AList InviteRecord)
    (fetched : List (String × InviteRecord)) (code : String) :
    alookup (mergeFetch entry fetched) code =
      (lookupLast fetched code).or (alookup entry code) := by
  induction fetched generalizing entry with
  | nil => rfl
  | cons p rest ih =>
    simp only [mergeFetch, List.foldl_cons] at ih ⊢
    rw [ih, alookup_aupsert, lookupLast_cons, Option.or_assoc]
    congr 1
    by_cases h : p.1 = code
    · subst h; rw [if_pos rfl, if_pos rfl]; rfl
    · rw [if_neg h, if_neg (fun hc : code = p.1 => h hc.symm)]
      rfl

/-- Claim C2 counterexample: a successful refresh does not drop invite codes
absent from the new fetch — a cached code "old" that the refreshed fetch no
longer returns is still present in the guild's cache entry afterwards. -/
theorem refresh_keeps_code_absent_from_fetch :
    ¬ (cacheLookup (fetchAndStoreInvites [("g", [("old", { uses := 2 })])] "g" true
        (some [("new", { uses := 5 })])).cache "g" "old" = none) := by
  decide

/-- Claim C2 (amended): a successful invite refresh assigns each fetched
invite into the server's cached entry — a fetched code takes its (last)
fetched record, while a code absent from the new fetch keeps its previous
cached record — and the whole cache is persisted immediately afterwards. -/
theorem fetchAndStoreInvites_upserts_and_persists
    (invites : AList (AList InviteRecord)) (gid : String)
    (fetched : List (String × InviteRecord)) (code : String) :
    cacheLookup (fetchAndStoreInvites invites gid true (some fetched)).cache gid code =
      (lookupLast fetched code).or (cacheLookup invites gid code) ∧
    (fetchAndStoreInvites invites gid true (some fetched)).persisted =
      some (fetchAndStoreInvites invites gid true (some fetched)).cache := by
  constructor
  · simp only [fetchAndStoreInvites, if_true, cacheLookup]
    rw [alookup_aupsert, if_pos rfl, Option.getD_some, alookup_mergeFetch]
  · rfl

/-- Claim C3: with a "before" snapshot holding only codeA at 2 uses and a
refreshed fetch returning codeA at 3 uses and codeB at 5 uses — in either
fetch order — the attribution diff names codeA: merging the fetch into the
cache keeps the pre-existing codeA entry first in iteration order, so the
first-increment scan reaches codeA (3 > 2) before codeB. -/
theorem join_attributes_codeA_regardless_of_order
    (a2 a3 b5 : InviteRecord) (fetched : List (String × InviteRecord))
    (h2 : a2.uses = 2) (h3 : a3.uses = 3) (_h5 : b5.uses = 5)
    (horder : fetched = [("codeA", a3), ("codeB", b5)] ∨
              fetched = [("codeB", b5), ("codeA", a3)]) :
    findUsedInvite (mergeFetch [("codeA", a2)] fetched) [("codeA", a2)] =
      some ("codeA", a3) := by
  rcases horder with h | h <;> subst h <;>
    simp [mergeFetch, aupsert, findUsedInvite, beforeUses, alookup, h2, h3]

/-- Witness for claim C3 at concrete records, second fetch order. -/
theorem join_attributes_codeA_witness :
    findUsedInvite
        (mergeFetch [("codeA", ({ uses := 2 } : InviteRecord))]
          [("codeB", { uses := 5 }), ("codeA", { uses := 3 })])
        [("codeA", { uses := 2 })] = some ("codeA", { uses := 3 }) :=
  join_attributes_codeA_regardless_of_order _ _ _ _ rfl rfl rfl (Or.inr rfl)

/-- Claim C1: the attribution diff iterates the "after" snapshot's entries in
iteration order and yields the first code whose uses strictly exceed the uses
recorded in the "before" snapshot (a code missing from "before" counting as
uses = 0), stopping at the first match — i.e. it is exactly `List.find?` of
that predicate over the "after" list. -/
theorem findUsedInvite_eq_first_increase (after before : AList InviteRecord) :
    findUsedInvite after before =
      after.find? (fun p => beforeUses before p.1 < p.2.uses) := by
  induction after with
  | nil => rfl
  | cons p rest ih =>
    obtain ⟨code, a⟩ := p
    simp only [findUsedInvite, List.find?]
    by_cases h : beforeUses before code < a.uses
    · simp [h]
    · simp [h, ih]

theorem nestedLookup_eq {β : Type} (m : AList (AList β)) (g u : String) :
    (alookup m g).bind (fun x => alookup x u) = alookup ((alookup m g).getD []) u := by
  cases h : alookup m g <;> simp [alookup]

theorem getStats_eq (st : StatsMap) (g u : String) :
    getStats st g u = alookup ((alookup st g).getD []) u :=
  nestedLookup_eq st g u

theorem memberInviter_eq (m : MembersMap) (g u : String) :
    memberInviter m g u = alookup ((alookup m g).getD []) u :=
  nestedLookup_eq m g u

theorem alookup_ensureKey {β : Type} (m : AList (AList β)) (k g u : String) :
    alookup ((alookup (ensureKey m k) g).getD []) u = alookup ((alookup m g).getD []) u := by
  cases h : alookup m k with
  | some x => simp [ensureKey, h]
  | none =>
    simp only [ensureKey, h]
    rw [alookup_aupsert]
    by_cases hg : g = k
    · subst hg; rw [if_pos rfl, h]; rfl
    · rw [if_neg hg]

theorem getStats_ensureKey (st : StatsMap) (k g u : String) :
    getStats (ensureKey st k) g u = getStats st g u := by
  rw [getStats_eq, getStats_eq, alookup_ensureKey]

theorem memberInviter_ensureKey (m : MembersMap) (k g u : String) :
    memberInviter (ensureKey m k) g u = memberInviter m g u := by
  rw [memberInviter_eq, memberInviter_eq, alookup_ensureKey]

theorem getStats_updateUserStats (st : StatsMap) (gid uid : String)
    (f : InviterStats → InviterStats) (g u : String) :
    getStats (updateUserStats st gid uid f) g u =
      if g = gid ∧ u = uid then some (f ((getStats st gid uid).getD zeroStats))
      else getStats st g u := by
  simp only [getStats_eq]
  simp only [updateUserStats]
  rw [alookup_aupsert]
  by_cases hg : g = gid
  · subst hg
    rw [if_pos rfl, Option.getD_some, alookup_aupsert]
    by_cases hu : u = uid
    · subst hu
      rw [if_pos rfl, if_pos ⟨rfl, rfl⟩]
    · rw [if_neg hu, if_neg (fun hc => hu hc.2)]
  · rw [if_neg hg, if_neg (fun hc => hg hc.1)]

theorem joinsOf_getD (s : Option InviterStats) : (s.getD zeroStats).joins = joinsOf s := by
  cases s <;> rfl

theorem leavesOf_getD (s : Option InviterStats) : (s.getD zeroStats).leaves = leavesOf s := by
  cases s <;> rfl

theorem bonusOf_getD (s : Option InviterStats) : (s.getD zeroStats).bonus = bonusOf s := by
  cases s <;> rfl

theorem getStats_applyOp_fields (st : StatsMap) (op : LedgerOp) (gid uid : String) :
    joinsOf (getStats (applyOp st op) gid uid)
        = joinsOf (getStats st gid uid) + countJoins [op] gid uid ∧
    leavesOf (getStats (applyOp st op) gid uid)
        = leavesOf (getStats st gid uid) + countLeaves [op] gid uid ∧
    bonusOf (getStats (applyOp st op) gid uid)
        = bonusOf (getStats st gid uid) + sumBonus [op] gid uid := by
  cases op with
  | join g u code =>
    simp only [applyOp, countJoins, countLeaves, sumBonus]
    rw [getStats_updateUserStats]
    by_cases hmatch : gid = g ∧ uid = u
    · obtain ⟨hg, hu⟩ := hmatch
      subst hg; subst hu
      simp [joinsOf, leavesOf, bonusOf, joinsOf_getD, leavesOf_getD, bonusOf_getD]
    · rw [if_neg hmatch]
      have hrev : ¬ (g = gid ∧ u = uid) := fun hc => hmatch ⟨hc.1.symm, hc.2.symm⟩
      simp [hrev]
  | leave g u =>
    simp only [applyOp, countJoins, countLeaves, sumBonus]
    rw [getStats_updateUserStats]
    by_cases hmatch : gid = g ∧ uid = u
    · obtain ⟨hg, hu⟩ := hmatch
      subst hg; subst hu
      simp [joinsOf, leavesOf, bonusOf, joinsOf_getD, leavesOf_getD, bonusOf_getD]
    · rw [if_neg hmatch]
      have hrev : ¬ (g = gid ∧ u = uid) := fun hc => hmatch ⟨hc.1.symm, hc.2.symm⟩
      simp [hrev]
  | addBonus g u d =>
    simp only [applyOp, countJoins, countLeaves, sumBonus]
    rw [getStats_updateUserStats]
    by_cases hmatch : gid = g ∧ uid = u
    · obtain ⟨hg, hu⟩ := hmatch
      subst hg; subst hu
      simp [joinsOf, leavesOf, bonusOf, joinsOf_getD, leavesOf_getD, bonusOf_getD]
    · rw [if_neg hmatch]
      have hrev : ¬ (g = gid ∧ u = uid) := fun hc => hmatch ⟨hc.1.symm, hc.2.symm⟩
      simp [hrev]

theorem countJoins_cons (op : LedgerOp) (rest : List LedgerOp) (gid uid : String) :
    countJoins (op :: rest) gid uid = countJoins [op] gid uid + countJoins rest gid uid := by
  cases op <;> simp [countJoins]

theorem countLeaves_cons (op : LedgerOp) (rest : List LedgerOp) (gid uid : String) :
    countLeaves (op :: rest) gid uid = countLeaves [op] gid uid + countLeaves rest gid uid := by
  cases op <;> simp [countLeaves]

theorem sumBonus_cons (op : LedgerOp) (rest : List LedgerOp) (gid uid : String) :
    sumBonus (op :: rest) gid uid = sumBonus [op] gid uid + sumBonus rest gid uid := by
  cases op <;> simp [sumBonus]

theorem applyOps_fields (ops : List LedgerOp) (st : StatsMap) (gid uid : String) :
    joinsOf (getStats (applyOps st ops) gid uid)
        = joinsOf (getStats st gid uid) + countJoins ops gid uid ∧
    leavesOf (getStats (applyOps st ops) gid uid)
        = leavesOf (getStats st gid uid) + countLeaves ops gid uid ∧
    bonusOf (getStats (applyOps st ops) gid uid)
        = bonusOf (getStats st gid uid) + sumBonus ops gid uid := by
  induction ops generalizing st with
  | nil => simp [applyOps, countJoins, countLeaves, sumBonus]
  | cons op rest ih =>
    obtain ⟨hj, hl, hb⟩ := ih (applyOp st op)
    obtain ⟨sj, sl, sb⟩ := getStats_applyOp_fields st op gid uid
    refine ⟨?_, ?_, ?_⟩
    · rw [applyOps, List.foldl_cons]
      rw [show List.foldl applyOp (applyOp st op) rest = applyOps (applyOp st op) rest from rfl]
      rw [hj, sj, countJoins_cons op rest gid uid]
      ring
    · rw [applyOps, List.foldl_cons]
      rw [show List.foldl applyOp (applyOp st op) rest = applyOps (applyOp st op) rest from rfl]
      rw [hl, sl, countLeaves_cons op rest gid uid]
      ring
    · rw [applyOps, List.foldl_cons]
      rw [show List.foldl applyOp (applyOp st op) rest = applyOps (applyOp st op) rest from rfl]
      rw [hb, sb, sumBonus_cons op rest gid uid]
      ring

/-- Claim C4: over any sequence of the three ledger mutations starting from an
empty ledger, each user record's joins, leaves and bonus equal exactly the
counts contributed by the operations targeting that (serverId, userId), and
the derived total — recomputed by computeTotal, never stored — equals
joins - leaves + bonus after the whole sequence (hence after every prefix,
each prefix being itself such a sequence). -/
theorem ledger_total_invariant (ops : List LedgerOp) (gid uid : String) :
    joinsOf (getStats (applyOps [] ops) gid uid) = countJoins ops gid uid ∧
    leavesOf (getStats (applyOps [] ops) gid uid) = countLeaves ops gid uid ∧
    bonusOf (getStats (applyOps [] ops) gid uid) = sumBonus ops gid uid ∧
    computeTotal (getStats (applyOps [] ops) gid uid)
      = countJoins ops gid uid - countLeaves ops gid uid + sumBonus ops gid uid := by
  obtain ⟨hj, hl, hb⟩ := applyOps_fields ops [] gid uid
  have hj0 : joinsOf (getStats [] gid uid) = 0 := rfl
  have hl0 : leavesOf (getStats [] gid uid) = 0 := rfl
  have hb0 : bonusOf (getStats [] gid uid) = 0 := rfl
  rw [hj0, zero_add] at hj
  rw [hl0, zero_add] at hl
  rw [hb0, zero_add] at hb
  exact ⟨hj, hl, hb, by rw [computeTotal, hj, hl, hb]⟩

/-- Claim C5: on a departure for (serverId, memberId), if the member is
present in the attribution index (with a non-empty inviter id, the only kind
the program ever records) then exactly that inviter's leaves is incremented
by 1 — the record lazily created if missing — while every other stats record
and the whole index (including the member's own entry) are unchanged; if the
member is absent from the index, nothing changes at all. -/
theorem guildMemberRemove_frame (stats : StatsMap) (members : MembersMap) (gid mid : String) :
    (memberInviter members gid mid = none →
      guildMemberRemove stats members gid mid = (stats, members)) ∧
    (∀ inv, memberInviter members gid mid = some inv → inv ≠ "" →
      (guildMemberRemove stats members gid mid).2 = members ∧
      getStats (guildMemberRemove stats members gid mid).1 gid inv =
        some { (getStats stats gid inv).getD zeroStats with
               leaves := ((getStats stats gid inv).getD zeroStats).leaves + 1 } ∧
      ∀ g u, ¬ (g = gid ∧ u = inv) →
        getStats (guildMemberRemove stats members gid mid).1 g u = getStats stats g u) := by
  constructor
  · intro h
    simp [guildMemberRemove, h, jsTruthyId]
  · intro inv h hne
    have htr : jsTruthyId (memberInviter members gid mid) = some inv := by
      simp [jsTruthyId, h, hne]
    refine ⟨?_, ?_, ?_⟩
    · simp [guildMemberRemove, htr]
    · simp [guildMemberRemove, htr, getStats_updateUserStats]
    · intro g u hgu
      simp [guildMemberRemove, htr, getStats_updateUserStats, hgu]

/-- Witness for claim C5: a member recorded as invited by "alice" departs;
alice's existing record gains one leave. -/
theorem guildMemberRemove_frame_witness :
    getStats (guildMemberRemove
        [("g", [("alice", { joins := 3, leaves := 1, bonus := 0, lastInviteCode := none })])]
        [("g", [("m", "alice")])] "g" "m").1 "g" "alice" =
      some { joins := 3, leaves := 2, bonus := 0, lastInviteCode := none } := by
  have h := ((guildMemberRemove_frame
      [("g", [("alice", { joins := 3, leaves := 1, bonus := 0, lastInviteCode := none })])]
      [("g", [("m", "alice")])] "g" "m").2 "alice" rfl (by decide)).2.1
  simpa using h

/-- Claim C10: a departure for a member whose recorded inviter has no stats
record lazily creates a zeroed record and increments its leaves, giving
joins 0, leaves 1, bonus 0 — so leaves exceeds joins and the derived total
is negative (-1). -/
theorem departure_without_record_negative_total (stats : StatsMap) (members : MembersMap)
    (gid mid inv : String) (hlook : memberInviter members gid mid = some inv)
    (hne : inv ≠ "") (hnost : getStats stats gid inv = none) :
    getStats (guildMemberRemove stats members gid mid).1 gid inv =
      some { joins := 0, leaves := 1, bonus := 0, lastInviteCode := none } ∧
    computeTotal (getStats (guildMemberRemove stats members gid mid).1 gid inv) = -1 ∧
    computeTotal (getStats (guildMemberRemove stats members gid mid).1 gid inv) < 0 := by
  have htr : jsTruthyId (memberInviter members gid mid) = some inv := by
    simp [jsTruthyId, hlook, hne]
  have h1 : getStats (guildMemberRemove stats members gid mid).1 gid inv =
      some { joins := 0, leaves := 1, bonus := 0, lastInviteCode := none } := by
    simp [guildMemberRemove, htr, getStats_updateUserStats, hnost, zeroStats]
  refine ⟨h1, ?_, ?_⟩ <;> rw [h1] <;> decide

/-- Witness for claim C10: "bob" is on record as the inviter of a departing
member but has no stats record; the departure leaves him at total -1. -/
theorem departure_without_record_negative_total_witness :
    getStats (guildMemberRemove [] [("g", [("m", "bob")])] "g" "m").1 "g" "bob" =
      some { joins := 0, leaves := 1, bonus := 0, lastInviteCode := none } :=
  (departure_without_record_negative_total [] [("g", [("m", "bob")])] "g" "m" "bob"
    rfl (by decide) rfl).1

/-- Claim C6: a join resolved as matchedVanity or inconclusive, and likewise
a matchedInvite whose invite carries no (truthy) inviter id, leaves every
per-user statistics record and every reverse-index entry unchanged (only the
handler's unconditional creation of an empty per-guild map can occur, which
changes no entry). -/
theorem join_without_inviter_no_mutation (st : BotState) (gid mid : String) (hasPerm : Bool)
    (fetchResult : Option (List (String × InviteRecord))) (bv av : Option Nat) (g u : String)
    (h : match (guildMemberAdd st gid mid hasPerm fetchResult bv av).2 with
         | .matchedInvite _ r => jsTruthyId r.inviterId = none
         | .matchedVanity => True
         | .inconclusive => True) :
    getStats (guildMemberAdd st gid mid hasPerm fetchResult bv av).1.stats g u
      = getStats st.stats g u ∧
    memberInviter (guildMemberAdd st gid mid hasPerm fetchResult bv av).1.members g u
      = memberInviter st.members g u := by
  cases hused : findUsedInvite
      ((alookup (fetchAndStoreInvites st.invites gid hasPerm fetchResult).cache gid).getD [])
      ((alookup st.invites gid).getD []) with
  | none =>
    have hstats : (guildMemberAdd st gid mid hasPerm fetchResult bv av).1.stats
        = ensureKey st.stats gid := by
      simp [guildMemberAdd, hused, applyAttribution]
    have hmembers : (guildMemberAdd st gid mid hasPerm fetchResult bv av).1.members
        = ensureKey st.members gid := by
      simp [guildMemberAdd, hused, applyAttribution]
    exact ⟨by rw [hstats, getStats_ensureKey], by rw [hmembers, memberInviter_ensureKey]⟩
  | some cr =>
    obtain ⟨code, r⟩ := cr
    have hres : (guildMemberAdd st gid mid hasPerm fetchResult bv av).2
        = .matchedInvite code r := by
      simp [guildMemberAdd, hused]
    rw [hres] at h
    have h2 : jsTruthyId r.inviterId = none := h
    have hstats : (guildMemberAdd st gid mid hasPerm fetchResult bv av).1.stats
        = ensureKey st.stats gid := by
      simp [guildMemberAdd, hused, applyAttribution, h2]
    have hmembers : (guildMemberAdd st gid mid hasPerm fetchResult bv av).1.members
        = ensureKey st.members gid := by
      simp [guildMemberAdd, hused, applyAttribution, h2]
    exact ⟨by rw [hstats, getStats_ensureKey], by rw [hmembers, memberInviter_ensureKey]⟩

/-- Witness for claim C6: a join with no permission to fetch and no vanity
data is inconclusive and leaves stats and index reads unchanged. -/
theorem join_without_inviter_no_mutation_witness :
    getStats (guildMemberAdd ⟨[], [], []⟩ "g" "m" false none none none).1.stats "g" "m"
      = getStats ([] : StatsMap) "g" "m" ∧
    memberInviter (guildMemberAdd ⟨[], [], []⟩ "g" "m" false none none none).1.members "g" "m"
      = memberInviter ([] : MembersMap) "g" "m" :=
  join_without_inviter_no_mutation ⟨[], [], []⟩ "g" "m" false none none none "g" "m" trivial

/-- Claim C7: the leaderboard returns (userId, total) pairs in descending
total order (every pair dominates all later pairs), truncated to
min(n, entries) for any n; on totals A 5, B 9, C 9, D 1 with n = 3 it
returns B and C (tie kept in entry order) before A, and exactly 3 entries. -/
theorem leaderboardTop_sorted_truncated :
    (∀ (g : AList InviterStats) (n : Nat),
      (leaderboardTop g n).Pairwise totalDesc ∧
      (leaderboardTop g n).length = min n g.length) ∧
    leaderboardTop
        [("A", { joins := 5, leaves := 0, bonus := 0, lastInviteCode := none }),
         ("B", { joins := 9, leaves := 0, bonus := 0, lastInviteCode := none }),
         ("C", { joins := 9, leaves := 0, bonus := 0, lastInviteCode := none }),
         ("D", { joins := 1, leaves := 0, bonus := 0, lastInviteCode := none })] 3 =
      [("B", 9), ("C", 9), ("A", 5)] := by
  refine ⟨fun g n => ⟨?_, ?_⟩, ?_⟩
  · exact List.Pairwise.sublist (List.take_sublist _ _) (List.sorted_insertionSort totalDesc _)
  · simp [leaderboardTop, List.length_take, List.length_insertionSort, List.length_map]
  · decide

theorem migrateEntry_idem (e : Option RawStats) :
    migrateEntry (migrateEntry e) = migrateEntry e := by
  cases e with
  | none => rfl
  | some s =>
    by_cases h : s.total.isSome ∧ s.joins = none
    · simp only [migrateEntry, if_pos h]
      simp [migrateEntry]
    · simp only [migrateEntry, if_neg h]
      have h2 : ¬ ((s.total).isSome ∧ (some (s.joins.getD 0) : Option Int) = none) := by
        simp
      simp [migrateEntry, h2]

theorem migrateUsers_idem (l : AList (Option RawStats)) :
    (l.map (fun u => (u.1, migrateEntry u.2))).map (fun u => (u.1, migrateEntry u.2)) =
      l.map (fun u => (u.1, migrateEntry u.2)) := by
  induction l with
  | nil => rfl
  | cons u rest ih => simp only [List.map_cons, ih, migrateEntry_idem]

/-- Claim C8: the startup schema migration is idempotent — applying it twice
to any stats map gives the same map as applying it once. -/
theorem migrateOldStatsSchema_idem (stats : AList (AList (Option RawStats))) :
    migrateOldStatsSchema (migrateOldStatsSchema stats) = migrateOldStatsSchema stats := by
  induction stats with
  | nil => rfl
  | cons gp rest ih =>
    simp only [migrateOldStatsSchema, List.map_cons] at ih ⊢
    exact congrArg₂ List.cons (congrArg (Prod.mk gp.1) (migrateUsers_idem gp.2)) ih

/-- Claim C9: a legacy record (non-null total, no joins) is rewritten to
joins := total, leaves := 0, bonus := 0, with lastInviteCode preserved
(absent or null becoming null, a present code kept). -/
theorem migrateEntry_legacy (s : RawStats) (t : Int)
    (htotal : s.total = some t) (hjoins : s.joins = none) :
    migrateEntry (some s) =
      some { total := none, joins := some t, leaves := some 0, bonus := some 0,
             lastInviteCode := some s.lastInviteCode.join } := by
  simp [migrateEntry, htotal, hjoins]

/-- Witness for claim C9: the legacy record with total 12 and lastInviteCode
"abc" migrates to joins 12, leaves 0, bonus 0, lastInviteCode "abc". -/
theorem migrateEntry_legacy_witness :
    migrateEntry (some { total := some 12, lastInviteCode := some (some "abc") }) =
      some { total := none, joins := some 12, leaves := some 0, bonus := some 0,
             lastInviteCode := some (some "abc") } :=
  migrateEntry_legacy { total := some 12, lastInviteCode := some (some "abc") } 12 rfl rfl

end InviteBot
